import Mathlib

/-!
# Verification of the rlm_json mapping evaluator (src/modules/rlm_json/rlm_json.c)

Shallow embedding of the JSON attribute-mapping module of freeradius-server.
The module's own logic (cache construction, the mapping-evaluation walk, the
xlat helpers) is translated from the C source.  External collaborators (the
jpath compiler `fr_jpath_parse`, the jpath evaluator `fr_jpath_evaluate_leaf`,
the JSON tokener, `tmpl_aexpand`, `tmpl_copy_pairs`, the JSON encoder) are
modelled as function parameters, so every theorem quantifies over their
behaviour; witnesses instantiate them concretely.

Machine details that cannot affect the verified properties (talloc ownership,
allocation failure of `MEM(...)`) are not modelled; every early-`return` path
and every branch of the C control flow is.
-/

set_option autoImplicit false

namespace RlmJson

/-- Attribute value types (`fr_type_t`), restricted to the ones the module's
logic inspects (`FR_TYPE_STRING` for the DATA right-hand check,
`FR_TYPE_UINT64` for the json-c capability check) plus a representative
other type. -/
inductive FrType
  | tstring
  | tuint64
  | tuint32
  deriving DecidableEq, Repr

/-- A dictionary attribute (`fr_dict_attr_t`): a name and a value type. -/
structure Attr where
  name : String
  ty : FrType
  deriving DecidableEq, Repr

/-- Map operators (`map->op`); which one is used never changes the module's
control flow, it is only copied onto produced pairs. -/
inductive Oper
  | assign
  | addEq
  | compare
  deriving DecidableEq, Repr

/-- A typed value (`fr_value_box_t`) as produced by the jpath leaf
evaluator. -/
inductive Value
  | vstr (s : String)
  | vnum (n : Nat)
  deriving DecidableEq, Repr

/-- An attribute-value pair (`fr_pair_t`): dictionary attribute, operator,
value.  `da` is the attribute identity used by the exclusion match
(`vp->da == vpm->da`). -/
structure Pair where
  da : Attr
  op : Oper
  val : Value
  deriving DecidableEq, Repr

/-- Opaque handle for a compiled jpath expression (`fr_jpath_node_t *`).
The module never looks inside it. -/
abbrev Jpath := Nat

/-- Opaque handle for a parsed JSON document root (`json_object *`). -/
abbrev Json := Nat

/-- Result of the external jpath compiler `fr_jpath_parse`: the C function
returns `slen > 0` (bytes consumed) with a node on success, or `slen <= 0`
where `-slen` is the error byte offset, with a message in `fr_strerror`. -/
inductive JParseRes
  | ok (consumed : Nat) (node : Jpath)
  | err (offset : Nat) (msg : String)
  deriving DecidableEq, Repr

/-- The external jpath compiler, as a function parameter. -/
abbrev JParse := String → JParseRes

/-- xlat return actions (`xlat_action_t`), restricted to the two the module
uses. -/
inductive XlatAction
  | done
  | fail
  deriving DecidableEq, Repr

/-! ## Quoting helper (`json_quote_xlat`, rlm_json.c lines 89–111)

The C function: if the input list is empty, return `XLAT_ACTION_DONE` with no
output (`/* Empty input is allowed */`); otherwise escape the head value with
`fr_json_from_string` (external), failing with `XLAT_ACTION_FAIL` when the
escaper returns NULL, else append the escaped string to the output cursor. -/

/-- Embedding of `json_quote_xlat`.  `jsonFromString` is the external escaper
`fr_json_from_string` (`none` = returned NULL).  Returns the xlat action and
the values appended to the output cursor. -/
def json_quote_xlat (jsonFromString : String → Option String) (input : List String) :
    XlatAction × List String :=
  match input with
  | [] => (.done, [])
  | s :: _ =>
    match jsonFromString s with
    | none => (.fail, [])
    | some t => (.done, [t])

/-! ## Diagnostic helper (`jpath_validate_xlat`, rlm_json.c lines 123–152)

The C function parses the input with `fr_jpath_parse`.  If `slen <= 0` it
appends `"<-slen>:<fr_strerror()>"` and returns DONE; otherwise it appends
`"<slen>:<fr_jpath_asprint(head)>"` and returns DONE.  Both branches return
`XLAT_ACTION_DONE`. -/

/-- Embedding of `jpath_validate_xlat`.  `jparse` is `fr_jpath_parse`,
`reprint` is `fr_jpath_asprint`. -/
def jpath_validate_xlat (jparse : JParse) (reprint : Jpath → String) (path : String) :
    XlatAction × List String :=
  match jparse path with
  | .err off msg => (.done, [toString off ++ ":" ++ msg])
  | .ok consumed node => (.done, [toString consumed ++ ":" ++ reprint node])

/-! ## Document builder (`json_encode_xlat`, rlm_json.c lines 164–270)

The C function scans the argument left to right: an optional `!` marks a
token as negated, then `tmpl_afrom_attr_substr` parses an attribute
reference (failure aborts with FAIL), `tmpl_copy_pairs` resolves it to the
currently held pairs (a hard copy error, return `< -1`, aborts with FAIL; a
missing attribute resolves to no pairs and is not an error).  A negated
token removes from the accumulator `json_vps` every pair whose `da` equals
the `da` of some resolved pair; a plain token appends all resolved pairs.
Finally the accumulator is encoded by `fr_json_afrom_pair_list` (NULL
aborts with FAIL). -/

/-- One step of the token scan, after `tmpl_afrom_attr_substr`: either the
reference failed to parse (`bad`), or it parsed with its negate flag and an
opaque template handle resolved later by `tmpl_copy_pairs`. -/
inductive TokStep
  | bad
  | tok (negate : Bool) (vpt : Nat)
  deriving DecidableEq, Repr

/-- The inner removal loop of the negated branch (rlm_json.c lines 224–238):
for each resolved pair `vp`, delete from the accumulator every pair `vpm`
with `vp->da == vpm->da`. -/
def removeMatching (acc : List Pair) (vps : List Pair) : List Pair :=
  vps.foldl (fun a vp => a.filter (fun vpm => vpm.da ≠ vp.da)) acc

/-- The token-scan loop of `json_encode_xlat` (rlm_json.c lines 191–250),
threading the accumulator `json_vps`.  `copyPairs` is the external
`tmpl_copy_pairs` (`Except` error = hard copy failure).  Returns the final
accumulator or an error for the `goto error` paths. -/
def json_encode_go (copyPairs : Nat → Except Unit (List Pair)) :
    List TokStep → List Pair → Except Unit (List Pair)
  | [], acc => .ok acc
  | .bad :: _, _ => .error ()
  | .tok neg vpt :: rest, acc =>
    match copyPairs vpt with
    | .error _ => .error ()
    | .ok vps =>
      if neg then
        json_encode_go copyPairs rest (removeMatching acc vps)
      else
        json_encode_go copyPairs rest (acc ++ vps)

/-- Embedding of `json_encode_xlat`: run the token scan, then encode the
final accumulator with the external `fr_json_afrom_pair_list` (`encode`;
`none` = NULL).  Returns the action and the produced document strings. -/
def json_encode_xlat (copyPairs : Nat → Except Unit (List Pair))
    (encode : List Pair → Option String) (toks : List TokStep) :
    XlatAction × List String :=
  match json_encode_go copyPairs toks [] with
  | .error _ => (.fail, [])
  | .ok acc =>
    match encode acc with
    | none => (.fail, [])
    | some s => (.done, [s])

/-! ## Mapping right-hand sides and maps

`map->rhs->type` is a `tmpl_type_t`; the module's switches distinguish
`TMPL_TYPE_UNRESOLVED` (static text) and `TMPL_TYPE_DATA` (literal data)
from everything else.  The remaining kinds are represented by two
constructors so the spec's distinction between a dynamic template and an
unsupported kind can be stated: the C switches place both in `default`. -/

/-- Right-hand side of a map (`map->rhs`). -/
inductive Rhs
  | unresolved (text : String)
  | dataVal (ty : FrType) (text : String)
  | dynTempl (id : Nat)
  | otherKind (id : Nat)
  deriving DecidableEq, Repr

/-- A map entry (`map_t`): whether the left-hand side is an attribute
reference (`tmpl_is_attr(map->lhs)`), its dictionary attribute
(`tmpl_da(map->lhs)`), the operator, and the right-hand side. -/
structure MapT where
  lhsAttr : Bool
  da : Attr
  op : Oper
  rhs : Rhs
  deriving DecidableEq, Repr

/-- Right-hand kinds handled by the cache (`TMPL_TYPE_UNRESOLVED` and
`TMPL_TYPE_DATA` cases of both C switches). -/
def isCachedKind : Rhs → Bool
  | .unresolved _ => true
  | .dataVal _ _ => true
  | _ => false

/-- Number of maps whose right-hand side is static-text-or-literal. -/
def numCached (maps : List MapT) : Nat :=
  maps.countP (fun m => isCachedKind m.rhs)

/-- Whether the last map of the sequence is of cached kind (this decides
whether `mod_map_proc_instantiate`'s trailing allocation fires after the
last static map). -/
def endsCached : List MapT → Bool
  | [] => false
  | [m] => isCachedKind m.rhs
  | _ :: rest => endsCached rest

/-! ## Cache instantiation (`mod_map_proc_instantiate`, rlm_json.c lines 283–355)

The C function receives a pre-allocated, zeroed head node (`proc_inst`).  For
each map in order: (a) when json-c lacks `json_object_get_int64`, a map whose
lhs is an attribute of type `FR_TYPE_UINT64` is rejected ("64bit integers are
not supported by linked json-c.  Upgrade..."); (b) `TMPL_TYPE_UNRESOLVED`:
parse `map->rhs->name` into the current node's `jpath`, a parse error aborts
with the caret diagnostic; (c) `TMPL_TYPE_DATA`: the value must be a string,
then parse likewise; (d) any other type: `continue`.  After (b)/(c), if any
map follows (`map_list_next(maps, map)`), a fresh zeroed node is allocated
and becomes current.  The cache is modelled as the list of nodes, each node's
`jpath` field an `Option Jpath` (`none` = NULL). -/

/-- Instantiation errors, distinguished by which `return -1` path fires. -/
inductive InstErr
  | missingSource
  | upgradeRequired
  | rhsNotString
  | badExpr (offset : Nat)
  deriving DecidableEq, Repr

/-- The per-map loop of `mod_map_proc_instantiate`.  `cur` is the `jpath`
field of the current (yet unfilled) node; `has64` is
`HAVE_JSON_OBJECT_GET_INT64`. -/
def instGo (jparse : JParse) (has64 : Bool) :
    List MapT → Option Jpath → Except InstErr (List (Option Jpath))
  | [], cur => .ok [cur]
  | m :: rest, cur =>
    if (!has64 && m.lhsAttr && decide (m.da.ty = FrType.tuint64)) = true then
      .error .upgradeRequired
    else
      match m.rhs with
      | .unresolved text =>
        (match jparse text with
         | .err off _ => .error (.badExpr off)
         | .ok _ node =>
           match rest with
           | [] => .ok [some node]
           | _ :: _ => (instGo jparse has64 rest none).map (fun tail => some node :: tail))
      | .dataVal ty text =>
        if ty ≠ FrType.tstring then .error .rhsNotString
        else
          (match jparse text with
           | .err off _ => .error (.badExpr off)
           | .ok _ node =>
             match rest with
             | [] => .ok [some node]
             | _ :: _ => (instGo jparse has64 rest none).map (fun tail => some node :: tail))
      | _ => instGo jparse has64 rest cur

/-- Embedding of `mod_map_proc_instantiate`: reject a missing JSON source
(`if (!src)`, lines 291–295) before any map is examined, then run the loop
starting from the pre-allocated zeroed head node. -/
def mod_map_proc_instantiate (jparse : JParse) (has64 : Bool) (src : Option Nat)
    (maps : List MapT) : Except InstErr (List (Option Jpath)) :=
  match src with
  | none => .error .missingSource
  | some _ => instGo jparse has64 maps none

/-! ## Value extraction (`_json_map_proc_get_value`, rlm_json.c lines 368–404)

`fr_jpath_evaluate_leaf` evaluates a compiled jpath against the document
root, coercing each leaf to `tmpl_da(map->lhs)->type`; a coercion/evaluation
failure returns `< 0` (whole call fails, output list freed), zero matches
return 0 with an empty output, otherwise one `fr_pair_t` per value is built
carrying `map->op`.  The evaluator is external; its result is the
`Except Unit (List Value)` argument (`.error` = returned `< 0`). -/

/-- Embedding of `_json_map_proc_get_value`. -/
def json_map_proc_get_value (evalRes : Except Unit (List Value)) (da : Attr) (op : Oper) :
    Except Unit (List Pair) :=
  match evalRes with
  | .error _ => .error ()
  | .ok vals => .ok (vals.map (fun v => { da := da, op := op, val := v }))

/-- Modelled from the spec: `map_to_request` (framework code of this
repository, src/lib/server/map.c, not under src/) invokes the supplied
getter to obtain the pairs for one mapping and, on success, delivers them
to the request's output sink in order ("construct one typed value ... and
deliver it to the output sink in match order"); it fails exactly when the
getter fails, in which case nothing is delivered for that mapping. -/
def map_to_request (req : List Pair) (getPairs : Except Unit (List Pair)) :
    Except Unit (List Pair) :=
  match getPairs with
  | .error _ => .error ()
  | .ok ps => .ok (req ++ ps)

/-! ## Evaluation (`mod_map_proc`, rlm_json.c lines 418–516)

Result codes are `rlm_rcode_t`; the doc comment (lines 413–416) documents
NOOP ("no rows were returned or columns matched"), UPDATED and FAIL as the
possible returns.  The body initialises `rcode = RLM_MODULE_UPDATED`
(line 421) and only ever reassigns `RLM_MODULE_FAIL`. -/

/-- The `rlm_rcode_t` values the doc comment of `mod_map_proc` mentions. -/
inductive RlmRcode
  | noop
  | updated
  | fail
  deriving DecidableEq, Repr

/-- The external collaborators of one evaluation call. -/
structure EvalExt where
  /-- `json_tokener_parse_ex`: `.error` carries `(char_offset, error_desc)`. -/
  jsonParse : String → Except (Nat × String) Json
  /-- `tmpl_aexpand` of a non-cached right-hand side (`none` = failed). -/
  expand : Rhs → Option String
  /-- `fr_jpath_parse` at evaluation time (dynamic branch). -/
  jparse : JParse
  /-- `fr_jpath_evaluate_leaf root jpath da`: `.error` = coercion or
  evaluation failure, `.ok []` = no match. -/
  evalLeaf : Json → Jpath → Attr → Except Unit (List Value)

/-- The map-walk loop of `mod_map_proc` (lines 459–508), threading the cache
cursor and the request's pair list.  Cached kinds read `cache->jpath` and
advance the cursor after a successful `map_to_request`; all other kinds take
the `default` branch: expand, parse fresh, then `map_to_request`, without
touching the cursor.  `none` models the undefined behaviour of dereferencing
a NULL cache cursor or passing a NULL `jpath` to the evaluator (impossible
for caches built by `mod_map_proc_instantiate` on the same maps, as proved
below). -/
def evalGo (ext : EvalExt) (root : Json) :
    List MapT → List (Option Jpath) → List Pair →
    Option (RlmRcode × List (Option Jpath) × List Pair)
  | [], cache, req => some (.updated, cache, req)
  | m :: rest, cache, req =>
    match m.rhs with
    | .unresolved _ | .dataVal _ _ =>
      (match cache with
       | [] => none
       | none :: _ => none
       | some jp :: cTail =>
         match map_to_request req (json_map_proc_get_value (ext.evalLeaf root jp m.da) m.da m.op) with
         | .error _ => some (.fail, some jp :: cTail, req)
         | .ok req' => evalGo ext root rest cTail req')
    | _ =>
      (match ext.expand m.rhs with
       | none => some (.fail, cache, req)
       | some text =>
         match ext.jparse text with
         | .err _ _ => some (.fail, cache, req)
         | .ok _ node =>
           match map_to_request req (json_map_proc_get_value (ext.evalLeaf root node m.da) m.da m.op) with
           | .error _ => some (.fail, cache, req)
           | .ok req' => evalGo ext root rest cache req')

/-- Embedding of `mod_map_proc`: reject a NULL input head (`!json_head`,
lines 432–435), concatenate the input fragments, reject empty concatenated
text before any parsing (lines 446–449), parse the document (parse failure
is FAIL), then run the map walk.  Returns the result code and the final
request pair list (`none` = the undefined-behaviour case of `evalGo`). -/
def mod_map_proc (ext : EvalExt) (cache : List (Option Jpath)) (maps : List MapT)
    (req : List Pair) (json : List String) : Option (RlmRcode × List Pair) :=
  match json with
  | [] => some (.fail, req)
  | _ =>
    let json_str := String.join json
    if json_str.length = 0 then some (.fail, req)
    else
      match ext.jsonParse json_str with
      | .error _ => some (.fail, req)
      | .ok root =>
        match evalGo ext root maps cache req with
        | none => none
        | some (rc, _, req') => some (rc, req')

/-! ## Concrete fixtures

Concrete attributes, maps and external collaborators used by witnesses and
counterexamples. -/

/-- A string-typed target attribute. -/
def attrReplyMsg : Attr := { name := "Reply-Message", ty := .tstring }

/-- A 64-bit unsigned target attribute. -/
def attrOctets64 : Attr := { name := "Acct-Input-Octets64", ty := .tuint64 }

/-- A static-text map targeting `attrReplyMsg` via `$.msg`. -/
def mapMsg : MapT := { lhsAttr := true, da := attrReplyMsg, op := .assign, rhs := .unresolved "$.msg" }

/-- A second static-text map, used as the coercion-failure site. -/
def mapBad : MapT := { lhsAttr := true, da := attrReplyMsg, op := .assign, rhs := .unresolved "$.bad" }

/-- A static-text map used for cache-shape fixtures. -/
def mapStat : MapT := { lhsAttr := false, da := attrReplyMsg, op := .assign, rhs := .unresolved "$.a" }

/-- A dynamic-template map. -/
def mapDyn : MapT := { lhsAttr := false, da := attrReplyMsg, op := .assign, rhs := .dynTempl 0 }

/-- A map of an unsupported right-hand kind. -/
def mapOther : MapT := { lhsAttr := false, da := attrReplyMsg, op := .assign, rhs := .otherKind 0 }

/-- A map whose target is a 64-bit unsigned attribute. -/
def mapU64 : MapT := { lhsAttr := true, da := attrOctets64, op := .assign, rhs := .unresolved "$.x" }

/-- The pair `mapMsg` produces from the document `{"msg":"hello"}`. -/
def pairHello : Pair := { da := attrReplyMsg, op := .assign, val := .vstr "hello" }

/-- A jpath compiler that accepts every input, consuming all of it. -/
def jparseFixOk : JParse := fun s => .ok s.length 7

/-- A canonical re-printer fixture. -/
def reprintFix : Jpath → String := fun _ => "$.a"

/-- Externals where every jpath evaluation matches nothing. -/
def extNoMatch : EvalExt :=
  { jsonParse := fun _ => .ok 0
    expand := fun _ => none
    jparse := fun _ => .err 0 "expansion failed"
    evalLeaf := fun _ _ _ => .ok [] }

/-- Externals where jpath node 1 matches `"hello"` and every other node hits
a coercion failure. -/
def extCoerce : EvalExt :=
  { jsonParse := fun _ => .ok 0
    expand := fun _ => none
    jparse := fun _ => .err 0 "expansion failed"
    evalLeaf := fun _ jp _ => if jp = 1 then .ok [.vstr "hello"] else .error () }

/-- Externals where expansion and fresh compilation succeed and evaluation
yields one value. -/
def extDyn : EvalExt :=
  { jsonParse := fun _ => .ok 0
    expand := fun _ => some "$.d"
    jparse := fun s => .ok s.length 9
    evalLeaf := fun _ _ _ => .ok [.vstr "v"] }

/-! ## Claim theorems -/

/-- C1: the claim (and `mod_map_proc`'s own doc comment, rlm_json.c lines
413–414) requires NOOP when no mapping produced any value; the code
initialises `rcode = RLM_MODULE_UPDATED` and never assigns NOOP, so an
evaluation in which the only mapping matches nothing returns UPDATED, not
NOOP. -/
theorem mod_map_proc_no_match_returns_updated :
    mod_map_proc extNoMatch [some 1] [mapMsg] [] ["\x7b\"msg\":\"hello\"\x7d"] =
      some (.updated, []) ∧ RlmRcode.updated ≠ RlmRcode.noop := by
  constructor
  · rfl
  · decide

/-- C6: when the concatenated document source text is empty, `mod_map_proc`
returns FAIL (distinguishable from NOOP) for every choice of external
collaborators — in particular for every document parser, so the document is
never parsed. -/
theorem mod_map_proc_empty_input_fail (ext : EvalExt) (cache : List (Option Jpath))
    (maps : List MapT) (req : List Pair) (json : List String)
    (hne : json ≠ []) (hempty : String.join json = "") :
    mod_map_proc ext cache maps req json = some (.fail, req) ∧
      RlmRcode.fail ≠ RlmRcode.noop := by
  refine ⟨?_, by decide⟩
  match json, hne with
  | j :: js, _ =>
    simp only [mod_map_proc, hempty]
    rfl

/-- C6 witness: evaluating with the single empty fragment `""` fails. -/
theorem mod_map_proc_empty_input_fail_witness :
    mod_map_proc extNoMatch [] [] [] [""] = some (.fail, []) ∧
      RlmRcode.fail ≠ RlmRcode.noop :=
  mod_map_proc_empty_input_fail extNoMatch [] [] [] [""] (by simp) rfl

/-- C7: `jpath_validate_xlat` never fails: for every input it returns
`XLAT_ACTION_DONE` with one report.  On a parse error the report is
`<offset>:<message>`; on success — given the compiler's contract that it
consumes at most the input — the report is `<consumed>:<reprint>` with
`consumed ≤ length`. -/
theorem jpath_validate_xlat_report (jparse : JParse) (reprint : Jpath → String)
    (path : String)
    (hc : ∀ s n nd, jparse s = .ok n nd → n ≤ s.length) :
    (jpath_validate_xlat jparse reprint path).1 = .done ∧
    (∀ off msg, jparse path = .err off msg →
      (jpath_validate_xlat jparse reprint path).2 = [toString off ++ ":" ++ msg]) ∧
    (∀ n nd, jparse path = .ok n nd →
      n ≤ path.length ∧
      (jpath_validate_xlat jparse reprint path).2 = [toString n ++ ":" ++ reprint nd]) := by
  unfold jpath_validate_xlat
  cases h : jparse path with
  | ok n nd =>
    refine ⟨rfl, ?_, ?_⟩
    · intro off msg hh
      cases hh
    · intro n' nd' hh
      cases hh
      exact ⟨hc path n nd h, rfl⟩
  | err off msg =>
    refine ⟨rfl, ?_, ?_⟩
    · intro off' msg' hh
      cases hh
      exact rfl
    · intro n nd hh
      cases hh

/-- C7 witness: a compiler that consumes the whole input on `"$.a"` yields
the DONE action and the report `3:$.a`. -/
theorem jpath_validate_xlat_report_witness :
    (jpath_validate_xlat jparseFixOk reprintFix "$.a").1 = .done ∧
      (jpath_validate_xlat jparseFixOk reprintFix "$.a").2 =
        [toString (3 : Nat) ++ ":" ++ reprintFix 7] := by
  have h := jpath_validate_xlat_report jparseFixOk reprintFix "$.a"
    (by intro s n nd hh; cases hh; exact Nat.le_refl _)
  exact ⟨h.1, ((h.2.2 3 7 (by decide)).2)⟩

/-- C9: `json_quote_xlat` treats empty input as valid: with no input value
it produces no output and returns `XLAT_ACTION_DONE`, for every escaper. -/
theorem json_quote_xlat_empty_input_done (f : String → Option String) :
    json_quote_xlat f [] = (.done, []) := rfl

/-- C10: when no JSON source template is supplied, `mod_map_proc_instantiate`
fails before any mapping is examined — for every jpath compiler, every
json-c capability and every map list, the result is the missing-source
error and no cache is returned. -/
theorem instantiate_missing_source_fails (jparse : JParse) (has64 : Bool)
    (maps : List MapT) :
    mod_map_proc_instantiate jparse has64 none maps = .error .missingSource := rfl

/-- C2 counterexample: with two static mappings where the first matches
`"hello"` and the second hits a coercion failure, the evaluation returns
FAIL, but the first mapping's value has already been delivered to the
request — contradicting the claim that earlier mappings' values are not
delivered. -/
theorem earlier_values_delivered_on_coercion_failure :
    mod_map_proc extCoerce [some 1, some 2] [mapMsg, mapBad] [] ["\x7b\"msg\":\"hello\"\x7d"] =
      some (.fail, [pairHello]) := rfl

/-- C2 amended: a coercion failure while processing a mapping aborts the
whole evaluation immediately with FAIL; the failing mapping delivers no
value and the request is left exactly as it was — so values delivered by
earlier mappings in the sequence remain delivered. -/
theorem coercion_failure_aborts_evaluation (ext : EvalExt) (root : Json) (m : MapT)
    (rest : List MapT) (jp : Jpath) (cTail : List (Option Jpath)) (req : List Pair)
    (hkind : isCachedKind m.rhs = true)
    (hco : ext.evalLeaf root jp m.da = .error ()) :
    evalGo ext root (m :: rest) (some jp :: cTail) req =
      some (.fail, some jp :: cTail, req) := by
  cases m with
  | mk lhsAttr da op rhs =>
    cases rhs with
    | unresolved t =>
      simp only at hco
      simp [evalGo, json_map_proc_get_value, map_to_request, hco]
    | dataVal ty t =>
      simp only at hco
      simp [evalGo, json_map_proc_get_value, map_to_request, hco]
    | dynTempl i => simp [isCachedKind] at hkind
    | otherKind i => simp [isCachedKind] at hkind

/-- C2 amended witness: at the failing mapping the request keeps the value
the earlier mapping delivered, and the result is FAIL. -/
theorem coercion_failure_aborts_evaluation_witness :
    evalGo extCoerce 0 [mapBad] [some 2] [pairHello] =
      some (.fail, [some 2], [pairHello]) :=
  coercion_failure_aborts_evaluation extCoerce 0 mapBad [] 2 [] [pairHello] rfl rfl

/-- C5 counterexample: during evaluation an unsupported right-hand kind is
not skipped: it takes the dynamic `default` branch, and when its expansion
fails the whole evaluation returns FAIL — contradicting "does not cause the
evaluation to fail". -/
theorem unsupported_rhs_not_skipped :
    mod_map_proc extNoMatch [] [mapOther] [] ["\x7b\"a\":1\x7d"] = some (.fail, []) := rfl

/-- C5 amended: during evaluation every mapping that is neither static text
nor literal data — dynamic templates and unsupported kinds alike — is
processed through the dynamic branch of `mod_map_proc`: it consumes no
cache entry; a failed expansion or a failed fresh compilation aborts the
evaluation with FAIL; a successful expansion, compilation and evaluation
delivers the matched values like any dynamic mapping.  (The silent skip of
non-static kinds happens at instantiation, where they create no cache entry
and raise no error.) -/
theorem noncached_rhs_dynamic_path (ext : EvalExt) (root : Json) (m : MapT)
    (rest : List MapT) (cache : List (Option Jpath)) (req : List Pair)
    (hkind : isCachedKind m.rhs = false) :
    (ext.expand m.rhs = none →
      evalGo ext root (m :: rest) cache req = some (.fail, cache, req)) ∧
    (∀ text off msg, ext.expand m.rhs = some text → ext.jparse text = .err off msg →
      evalGo ext root (m :: rest) cache req = some (.fail, cache, req)) ∧
    (∀ text n node vals, ext.expand m.rhs = some text → ext.jparse text = .ok n node →
      ext.evalLeaf root node m.da = .ok vals →
      evalGo ext root (m :: rest) cache req =
        evalGo ext root rest cache
          (req ++ vals.map (fun v => { da := m.da, op := m.op, val := v }))) := by
  cases m with
  | mk lhsAttr da op rhs =>
    cases rhs with
    | unresolved t => simp [isCachedKind] at hkind
    | dataVal ty t => simp [isCachedKind] at hkind
    | dynTempl i =>
      refine ⟨?_, ?_, ?_⟩
      · intro hexp
        simp [evalGo, hexp]
      · intro text off msg hexp hjp
        simp [evalGo, hexp, hjp]
      · intro text n node vals hexp hjp hev
        simp [evalGo, hexp, hjp, hev, json_map_proc_get_value, map_to_request]
    | otherKind i =>
      refine ⟨?_, ?_, ?_⟩
      · intro hexp
        simp [evalGo, hexp]
      · intro text off msg hexp hjp
        simp [evalGo, hexp, hjp]
      · intro text n node vals hexp hjp hev
        simp [evalGo, hexp, hjp, hev, json_map_proc_get_value, map_to_request]

/-- C5 amended witness: an unsupported-kind mapping whose expansion fails
makes the walk return FAIL with the cache cursor untouched. -/
theorem noncached_rhs_dynamic_path_witness :
    evalGo extNoMatch 0 [mapOther] [some 5] [] = some (.fail, [some 5], []) :=
  (noncached_rhs_dynamic_path extNoMatch 0 mapOther [] [some 5] [] rfl).1 rfl

/-! ## Helper lemmas on the exclusion algebra -/

/-- Boolean predicate: `p`'s attribute identity differs from every attribute
in the resolved group `vps`. -/
def noDaIn (vps : List Pair) (p : Pair) : Bool :=
  vps.all (fun v => p.da ≠ v.da)

/-- The inner removal loop equals one filter by attribute identity. -/
theorem removeMatching_eq_filter (vps : List Pair) :
    ∀ acc : List Pair, removeMatching acc vps = acc.filter (noDaIn vps) := by
  induction vps with
  | nil =>
    intro acc
    have h0 : noDaIn [] = fun _ => true := by
      funext p
      simp [noDaIn]
    simp [removeMatching, h0]
  | cons v vs ih =>
    intro acc
    have h1 : removeMatching acc (v :: vs) =
        removeMatching (acc.filter (fun vpm => vpm.da ≠ v.da)) vs := rfl
    rw [h1, ih, List.filter_filter]
    apply List.filter_congr
    intro p _
    by_cases h : p.da = v.da
    · simp [noDaIn, List.all_cons, h, Bool.and_comm]
    · simp [noDaIn, List.all_cons, h, Ne.symm h, Bool.and_comm]

/-- Removing a group from itself empties it: every pair of the group shares
its own attribute identity with the group. -/
theorem filter_noDaIn_self (A : List Pair) : A.filter (noDaIn A) = [] := by
  rw [List.filter_eq_nil_iff]
  intro p hp
  simp only [noDaIn, List.all_eq_true, decide_eq_true_eq]
  intro hall
  exact (hall p hp) rfl

/-- C4: in the document builder's token scan, an exclusion token removes
from the accumulator every currently accumulated pair whose attribute
identity occurs in the resolved group (matching by `da`, not by value), and
does not block later inclusions: for any resolved group `A`, the token
sequence `[A, !A]` yields an empty accumulator and `[A, !A, A]` yields `A`'s
values again. -/
theorem json_encode_exclusion_algebra (copyPairs : Nat → Except Unit (List Pair))
    (tA : Nat) (A : List Pair) (hA : copyPairs tA = .ok A) :
    (∀ (acc : List Pair) (rest : List TokStep),
      json_encode_go copyPairs (.tok true tA :: rest) acc =
        json_encode_go copyPairs rest (acc.filter (noDaIn A))) ∧
    json_encode_go copyPairs [.tok false tA, .tok true tA] [] = .ok [] ∧
    json_encode_go copyPairs [.tok false tA, .tok true tA, .tok false tA] [] = .ok A := by
  have hstep : ∀ (acc : List Pair) (rest : List TokStep),
      json_encode_go copyPairs (.tok true tA :: rest) acc =
        json_encode_go copyPairs rest (acc.filter (noDaIn A)) := by
    intro acc rest
    simp [json_encode_go, hA, removeMatching_eq_filter]
  refine ⟨hstep, ?_, ?_⟩
  · have h0 : json_encode_go copyPairs [.tok false tA, .tok true tA] [] =
        json_encode_go copyPairs [.tok true tA] A := by
      simp [json_encode_go, hA]
    rw [h0, hstep, filter_noDaIn_self]
    rfl
  · have h0 : json_encode_go copyPairs [.tok false tA, .tok true tA, .tok false tA] [] =
        json_encode_go copyPairs [.tok true tA, .tok false tA] A := by
      simp [json_encode_go, hA]
    rw [h0, hstep, filter_noDaIn_self]
    simp [json_encode_go, hA]

/-- C4 witness: with a provider resolving the token to `[pairHello]`, tokens
`[A, !A]` yield the empty accumulator and `[A, !A, A]` yield `[pairHello]`. -/
theorem json_encode_exclusion_algebra_witness :
    json_encode_go (fun _ => .ok [pairHello]) [.tok false 0, .tok true 0] [] = .ok [] ∧
    json_encode_go (fun _ => .ok [pairHello]) [.tok false 0, .tok true 0, .tok false 0] [] =
      .ok [pairHello] :=
  ⟨(json_encode_exclusion_algebra (fun _ => .ok [pairHello]) 0 [pairHello] rfl).2.1,
   (json_encode_exclusion_algebra (fun _ => .ok [pairHello]) 0 [pairHello] rfl).2.2⟩

/-! ## Helper lemma for the 64-bit capability check -/

/-- With json-c lacking 64-bit support, the instantiation loop never
succeeds when some map targets a 64-bit unsigned attribute: the per-map
check fires before the map's right-hand side is even examined. -/
theorem instGo_uint64_fails (jparse : JParse) :
    ∀ (maps : List MapT) (cur : Option Jpath),
      (∃ m ∈ maps, m.lhsAttr = true ∧ m.da.ty = FrType.tuint64) →
      ∀ c, instGo jparse false maps cur ≠ .ok c := by
  intro maps
  induction maps with
  | nil =>
    intro cur hm c
    rcases hm with ⟨m, hmem, _⟩
    simp at hmem
  | cons m rest ih =>
    intro cur hm c hok
    rcases hm with ⟨m', hmem, hattr, hty⟩
    by_cases hcond : (!false && m.lhsAttr && decide (m.da.ty = FrType.tuint64)) = true
    · rw [instGo, if_pos hcond] at hok
      cases hok
    · rw [instGo, if_neg hcond] at hok
      have hm' : m' ∈ rest := by
        rcases List.mem_cons.mp hmem with h | h
        · exfalso
          apply hcond
          rw [h] at hattr hty
          simp [hattr, hty]
        · exact h
      have hrec : ∀ (cur' : Option Jpath) (c' : List (Option Jpath)),
          instGo jparse false rest cur' ≠ .ok c' :=
        fun cur' c' => ih cur' ⟨m', hm', hattr, hty⟩ c'
      cases hrhs : m.rhs with
      | unresolved t =>
        rw [hrhs] at hok
        simp only [] at hok
        cases hp : jparse t with
        | err off msg =>
          rw [hp] at hok
          cases hok
        | ok n node =>
          rw [hp] at hok
          cases hre : rest with
          | nil =>
            rw [hre] at hm'
            simp at hm'
          | cons r rs =>
            rw [hre] at hok
            cases h2 : instGo jparse false (r :: rs) none with
            | error e =>
              rw [h2] at hok
              cases hok
            | ok tail =>
              rw [hre] at hrec
              exact hrec none tail h2
      | dataVal ty t =>
        rw [hrhs] at hok
        simp only [] at hok
        by_cases hts : ty = FrType.tstring
        · rw [if_neg (by simp [hts])] at hok
          cases hp : jparse t with
          | err off msg =>
            rw [hp] at hok
            cases hok
          | ok n node =>
            rw [hp] at hok
            cases hre : rest with
            | nil =>
              rw [hre] at hm'
              simp at hm'
            | cons r rs =>
              rw [hre] at hok
              cases h2 : instGo jparse false (r :: rs) none with
              | error e =>
                rw [h2] at hok
                cases hok
              | ok tail =>
                rw [hre] at hrec
                exact hrec none tail h2
        · rw [if_pos (by simp [hts])] at hok
          cases hok
      | dynTempl i =>
        rw [hrhs] at hok
        simp only [] at hok
        exact hrec cur c hok
      | otherKind i =>
        rw [hrhs] at hok
        simp only [] at hok
        exact hrec cur c hok

/-- C8: when json-c lacks `json_object_get_int64`, no mapping-set containing
a map whose target attribute has type `FR_TYPE_UINT64` instantiates
successfully; and when such a map is reached first, the failure is the
upgrade-required diagnostic. -/
theorem instantiate_rejects_uint64_without_int64 (jparse : JParse) (src : Nat)
    (maps : List MapT)
    (hm : ∃ m ∈ maps, m.lhsAttr = true ∧ m.da.ty = FrType.tuint64) :
    (∀ c, mod_map_proc_instantiate jparse false (some src) maps ≠ .ok c) ∧
    (∀ m rest, maps = m :: rest → m.lhsAttr = true → m.da.ty = FrType.tuint64 →
      mod_map_proc_instantiate jparse false (some src) maps = .error .upgradeRequired) := by
  constructor
  · intro c
    exact instGo_uint64_fails jparse maps none hm c
  · intro m rest heq hattr hty
    rw [heq]
    simp [mod_map_proc_instantiate, instGo, hattr, hty]

/-- C8 witness: a single-map set targeting the 64-bit attribute is rejected
with the upgrade-required diagnostic. -/
theorem instantiate_rejects_uint64_without_int64_witness :
    mod_map_proc_instantiate jparseFixOk false (some 0) [mapU64] = .error .upgradeRequired :=
  (instantiate_rejects_uint64_without_int64 jparseFixOk 0 [mapU64]
    ⟨mapU64, by simp, rfl, rfl⟩).2 mapU64 [] rfl rfl rfl

/-! ## Helper lemmas: cache shape and lock-step walk -/

/-- The right-hand texts of the cached-kind maps, in order (the texts
`mod_map_proc_instantiate` compiles). -/
def cachedTexts (maps : List MapT) : List String :=
  maps.filterMap (fun m =>
    match m.rhs with
    | .unresolved t => some t
    | .dataVal _ t => some t
    | _ => none)

/-- There is one compiled text per cached-kind map. -/
theorem cachedTexts_length : ∀ maps : List MapT, (cachedTexts maps).length = numCached maps := by
  intro maps
  induction maps with
  | nil => rfl
  | cons m rest ih =>
    cases hrhs : m.rhs with
    | unresolved t =>
      have h1 : cachedTexts (m :: rest) = t :: cachedTexts rest := by
        simp [cachedTexts, List.filterMap_cons, hrhs]
      have h2 : numCached (m :: rest) = numCached rest + 1 := by
        simp [numCached, List.countP_cons, isCachedKind, hrhs]
      rw [h1, h2, List.length_cons, ih]
    | dataVal ty t =>
      have h1 : cachedTexts (m :: rest) = t :: cachedTexts rest := by
        simp [cachedTexts, List.filterMap_cons, hrhs]
      have h2 : numCached (m :: rest) = numCached rest + 1 := by
        simp [numCached, List.countP_cons, isCachedKind, hrhs]
      rw [h1, h2, List.length_cons, ih]
    | dynTempl i =>
      have h1 : cachedTexts (m :: rest) = cachedTexts rest := by
        simp [cachedTexts, List.filterMap_cons, hrhs]
      have h2 : numCached (m :: rest) = numCached rest := by
        simp [numCached, List.countP_cons, isCachedKind, hrhs]
      rw [h1, h2, ih]
    | otherKind i =>
      have h1 : cachedTexts (m :: rest) = cachedTexts rest := by
        simp [cachedTexts, List.filterMap_cons, hrhs]
      have h2 : numCached (m :: rest) = numCached rest := by
        simp [numCached, List.countP_cons, isCachedKind, hrhs]
      rw [h1, h2, ih]

/-- Shape of a successfully built cache: the filled entries are, in order,
the compiled forms of the cached-kind maps' texts; one unfilled node trails
exactly when the map sequence does not end with a cached-kind map (it is
the node `mod_map_proc_instantiate` allocates after the last filled one
whenever any map follows). -/
theorem instGo_ok_shape (jparse : JParse) (has64 : Bool) :
    ∀ (maps : List MapT) (c : List (Option Jpath)),
      instGo jparse has64 maps none = .ok c →
      ∃ l : List Jpath,
        c = l.map some ++ (if endsCached maps then [] else [none]) ∧
        List.Forall₂ (fun t jp => ∃ n, jparse t = .ok n jp) (cachedTexts maps) l := by
  intro maps
  induction maps with
  | nil =>
    intro c hok
    cases hok
    exact ⟨[], by simp [endsCached], by simp [cachedTexts]⟩
  | cons m rest ih =>
    intro c hok
    by_cases hcond : (!has64 && m.lhsAttr && decide (m.da.ty = FrType.tuint64)) = true
    · rw [instGo, if_pos hcond] at hok
      cases hok
    · rw [instGo, if_neg hcond] at hok
      cases hrhs : m.rhs with
      | unresolved t =>
        rw [hrhs] at hok
        simp only [] at hok
        cases hp : jparse t with
        | err off msg =>
          rw [hp] at hok
          cases hok
        | ok n node =>
          rw [hp] at hok
          cases hre : rest with
          | nil =>
            rw [hre] at hok
            simp only [] at hok
            cases hok
            refine ⟨[node], ?_, ?_⟩
            · simp [endsCached, isCachedKind, hrhs]
            · have hct : cachedTexts [m] = [t] := by
                simp [cachedTexts, List.filterMap_cons, hrhs]
              rw [hct]
              exact List.Forall₂.cons ⟨n, hp⟩ List.Forall₂.nil
          | cons r rs =>
            rw [hre] at hok ih
            simp only [] at hok
            cases h2 : instGo jparse has64 (r :: rs) none with
            | error e =>
              rw [h2] at hok
              cases hok
            | ok tail =>
              rw [h2] at hok
              simp only [Except.map] at hok
              cases hok
              obtain ⟨l', hl', hf'⟩ := ih tail h2
              refine ⟨node :: l', ?_, ?_⟩
              · have hend : endsCached (m :: r :: rs) = endsCached (r :: rs) := rfl
                rw [hend, hl', List.map_cons, List.cons_append]
              · have hct : cachedTexts (m :: r :: rs) = t :: cachedTexts (r :: rs) := by
                  simp [cachedTexts, List.filterMap_cons, hrhs]
                rw [hct]
                exact List.Forall₂.cons ⟨n, hp⟩ hf'
      | dataVal ty t =>
        rw [hrhs] at hok
        simp only [] at hok
        by_cases hts : ty = FrType.tstring
        · rw [if_neg (by simp [hts])] at hok
          cases hp : jparse t with
          | err off msg =>
            rw [hp] at hok
            cases hok
          | ok n node =>
            rw [hp] at hok
            cases hre : rest with
            | nil =>
              rw [hre] at hok
              simp only [] at hok
              cases hok
              refine ⟨[node], ?_, ?_⟩
              · simp [endsCached, isCachedKind, hrhs]
              · have hct : cachedTexts [m] = [t] := by
                  simp [cachedTexts, List.filterMap_cons, hrhs]
                rw [hct]
                exact List.Forall₂.cons ⟨n, hp⟩ List.Forall₂.nil
            | cons r rs =>
              rw [hre] at hok ih
              simp only [] at hok
              cases h2 : instGo jparse has64 (r :: rs) none with
              | error e =>
                rw [h2] at hok
                cases hok
              | ok tail =>
                rw [h2] at hok
                simp only [Except.map] at hok
                cases hok
                obtain ⟨l', hl', hf'⟩ := ih tail h2
                refine ⟨node :: l', ?_, ?_⟩
                · have hend : endsCached (m :: r :: rs) = endsCached (r :: rs) := rfl
                  rw [hend, hl', List.map_cons, List.cons_append]
                · have hct : cachedTexts (m :: r :: rs) = t :: cachedTexts (r :: rs) := by
                    simp [cachedTexts, List.filterMap_cons, hrhs]
                  rw [hct]
                  exact List.Forall₂.cons ⟨n, hp⟩ hf'
        · rw [if_pos (by simp [hts])] at hok
          cases hok
      | dynTempl i =>
        rw [hrhs] at hok
        simp only [] at hok
        cases hre : rest with
        | nil =>
          rw [hre] at hok
          cases hok
          refine ⟨[], ?_, ?_⟩
          · simp [endsCached, isCachedKind, hrhs]
          · have hct : cachedTexts [m] = [] := by
              simp [cachedTexts, List.filterMap_cons, hrhs]
            rw [hct]
            exact List.Forall₂.nil
        | cons r rs =>
          rw [hre] at hok ih
          obtain ⟨l, hl, hf⟩ := ih c hok
          refine ⟨l, ?_, ?_⟩
          · have hend : endsCached (m :: r :: rs) = endsCached (r :: rs) := rfl
            rw [hend, hl]
          · have hct : cachedTexts (m :: r :: rs) = cachedTexts (r :: rs) := by
              simp [cachedTexts, List.filterMap_cons, hrhs]
            rw [hct]
            exact hf
      | otherKind i =>
        rw [hrhs] at hok
        simp only [] at hok
        cases hre : rest with
        | nil =>
          rw [hre] at hok
          cases hok
          refine ⟨[], ?_, ?_⟩
          · simp [endsCached, isCachedKind, hrhs]
          · have hct : cachedTexts [m] = [] := by
              simp [cachedTexts, List.filterMap_cons, hrhs]
            rw [hct]
            exact List.Forall₂.nil
        | cons r rs =>
          rw [hre] at hok ih
          obtain ⟨l, hl, hf⟩ := ih c hok
          refine ⟨l, ?_, ?_⟩
          · have hend : endsCached (m :: r :: rs) = endsCached (r :: rs) := rfl
            rw [hend, hl]
          · have hct : cachedTexts (m :: r :: rs) = cachedTexts (r :: rs) := by
              simp [cachedTexts, List.filterMap_cons, hrhs]
            rw [hct]
            exact hf

/-- The map walk of `mod_map_proc`, run against a cache whose leading
entries are the filled jpaths `l` with `numCached maps = l.length`, never
crashes (never dereferences past the filled entries), and a walk that
completes without failing consumes exactly the filled entries, leaving
the remainder `rest` of the cache as the final cursor. -/
theorem evalGo_lockstep (ext : EvalExt) (root : Json) :
    ∀ (maps : List MapT) (l : List Jpath) (rest : List (Option Jpath)) (req : List Pair),
      numCached maps = l.length →
      ∃ rc c' req', evalGo ext root maps (l.map some ++ rest) req = some (rc, c', req') ∧
        (rc = .updated → c' = rest) := by
  intro maps
  induction maps with
  | nil =>
    intro l rest req hlen
    have hl : l = [] := List.length_eq_zero.mp hlen.symm
    subst hl
    exact ⟨.updated, rest, req, by simp [evalGo], fun _ => rfl⟩
  | cons m ms ih =>
    intro l rest req hlen
    obtain ⟨mlhs, mda, mop, mrhs⟩ := m
    cases mrhs with
    | unresolved t =>
      have hnc : numCached (MapT.mk mlhs mda mop (Rhs.unresolved t) :: ms) = numCached ms + 1 := by
        simp [numCached, List.countP_cons, isCachedKind]
      rw [hnc] at hlen
      cases l with
      | nil => simp at hlen
      | cons jp l' =>
        rw [List.length_cons] at hlen
        have hlen' : numCached ms = l'.length := by omega
        simp only [List.map_cons, List.cons_append]
        cases hmr : map_to_request req
            (json_map_proc_get_value (ext.evalLeaf root jp mda) mda mop) with
        | error e =>
          exact ⟨.fail, some jp :: (List.map some l' ++ rest), req,
            by simp [evalGo, hmr], fun h => by simp at h⟩
        | ok req2 =>
          obtain ⟨rc, c', req', heq, himp⟩ := ih l' rest req2 hlen'
          refine ⟨rc, c', req', ?_, himp⟩
          have hstep : evalGo ext root (MapT.mk mlhs mda mop (Rhs.unresolved t) :: ms) (some jp :: (List.map some l' ++ rest)) req =
              evalGo ext root ms (List.map some l' ++ rest) req2 := by
            simp [evalGo, hmr]
          rw [hstep, heq]
    | dataVal ty t =>
      have hnc : numCached (MapT.mk mlhs mda mop (Rhs.dataVal ty t) :: ms) = numCached ms + 1 := by
        simp [numCached, List.countP_cons, isCachedKind]
      rw [hnc] at hlen
      cases l with
      | nil => simp at hlen
      | cons jp l' =>
        rw [List.length_cons] at hlen
        have hlen' : numCached ms = l'.length := by omega
        simp only [List.map_cons, List.cons_append]
        cases hmr : map_to_request req
            (json_map_proc_get_value (ext.evalLeaf root jp mda) mda mop) with
        | error e =>
          exact ⟨.fail, some jp :: (List.map some l' ++ rest), req,
            by simp [evalGo, hmr], fun h => by simp at h⟩
        | ok req2 =>
          obtain ⟨rc, c', req', heq, himp⟩ := ih l' rest req2 hlen'
          refine ⟨rc, c', req', ?_, himp⟩
          have hstep : evalGo ext root (MapT.mk mlhs mda mop (Rhs.dataVal ty t) :: ms) (some jp :: (List.map some l' ++ rest)) req =
              evalGo ext root ms (List.map some l' ++ rest) req2 := by
            simp [evalGo, hmr]
          rw [hstep, heq]
    | dynTempl i =>
      have hnc : numCached (MapT.mk mlhs mda mop (Rhs.dynTempl i) :: ms) = numCached ms := by
        simp [numCached, List.countP_cons, isCachedKind]
      rw [hnc] at hlen
      cases hexp : ext.expand (Rhs.dynTempl i) with
      | none =>
        exact ⟨.fail, List.map some l ++ rest, req,
          by simp [evalGo, hexp], fun h => by simp at h⟩
      | some text =>
        cases hjp : ext.jparse text with
        | err off msg =>
          exact ⟨.fail, List.map some l ++ rest, req,
            by simp [evalGo, hexp, hjp], fun h => by simp at h⟩
        | ok n node =>
          cases hmr : map_to_request req
              (json_map_proc_get_value (ext.evalLeaf root node mda) mda mop) with
          | error e =>
            exact ⟨.fail, List.map some l ++ rest, req,
              by simp [evalGo, hexp, hjp, hmr], fun h => by simp at h⟩
          | ok req2 =>
            obtain ⟨rc, c', req', heq, himp⟩ := ih l rest req2 hlen
            refine ⟨rc, c', req', ?_, himp⟩
            have hstep : evalGo ext root (MapT.mk mlhs mda mop (Rhs.dynTempl i) :: ms) (List.map some l ++ rest) req =
                evalGo ext root ms (List.map some l ++ rest) req2 := by
              simp [evalGo, hexp, hjp, hmr]
            rw [hstep, heq]
    | otherKind i =>
      have hnc : numCached (MapT.mk mlhs mda mop (Rhs.otherKind i) :: ms) = numCached ms := by
        simp [numCached, List.countP_cons, isCachedKind]
      rw [hnc] at hlen
      cases hexp : ext.expand (Rhs.otherKind i) with
      | none =>
        exact ⟨.fail, List.map some l ++ rest, req,
          by simp [evalGo, hexp], fun h => by simp at h⟩
      | some text =>
        cases hjp : ext.jparse text with
        | err off msg =>
          exact ⟨.fail, List.map some l ++ rest, req,
            by simp [evalGo, hexp, hjp], fun h => by simp at h⟩
        | ok n node =>
          cases hmr : map_to_request req
              (json_map_proc_get_value (ext.evalLeaf root node mda) mda mop) with
          | error e =>
            exact ⟨.fail, List.map some l ++ rest, req,
              by simp [evalGo, hexp, hjp, hmr], fun h => by simp at h⟩
          | ok req2 =>
            obtain ⟨rc, c', req', heq, himp⟩ := ih l rest req2 hlen
            refine ⟨rc, c', req', ?_, himp⟩
            have hstep : evalGo ext root (MapT.mk mlhs mda mop (Rhs.otherKind i) :: ms) (List.map some l ++ rest) req =
                evalGo ext root ms (List.map some l ++ rest) req2 := by
              simp [evalGo, hexp, hjp, hmr]
            rw [hstep, heq]

/-- The pair `extDyn`'s evaluator produces for `attrReplyMsg`. -/
def pairV : Pair := { da := attrReplyMsg, op := .assign, val := .vstr "v" }

/-- C3 counterexample: for the sequence [static, dynamic] the built cache
has two nodes while only one mapping is static-or-literal — the trailing
node is allocated after the static map because a map follows, but the
following map is dynamic and never fills or reads it — and a completed
walk leaves that trailing node unread. -/
theorem cache_extra_trailing_entry :
    mod_map_proc_instantiate jparseFixOk true (some 0) [mapStat, mapDyn] =
      .ok [some 7, none] ∧
    numCached [mapStat, mapDyn] = 1 ∧
    ([some 7, (none : Option Jpath)]).length ≠ numCached [mapStat, mapDyn] ∧
    evalGo extDyn 0 [mapStat, mapDyn] [some 7, none] [] =
      some (.updated, [none], [pairV, pairV]) := by
  refine ⟨rfl, by decide, by decide, rfl⟩

/-- C3 amended: a successfully built cache consists of, in order, exactly
one filled entry per static-or-literal mapping — the i-th filled entry
holding the compiled form of the i-th such mapping's text — followed by one
trailing unfilled node exactly when the mapping sequence does not end with
a static-or-literal mapping.  Walking the same mapping sequence, the
evaluator's cursor advances one entry per static mapping and zero per
dynamic mapping, never reads past the filled entries (no crash), and a walk
that completes without failure consumes exactly the filled entries, leaving
only the trailing unfilled node (when present) unread. -/
theorem cache_lockstep (jparse : JParse) (has64 : Bool) (src : Nat) (maps : List MapT)
    (c : List (Option Jpath)) (ext : EvalExt) (root : Json) (req : List Pair)
    (hinst : mod_map_proc_instantiate jparse has64 (some src) maps = .ok c) :
    ∃ l : List Jpath,
      c = l.map some ++ (if endsCached maps then [] else [none]) ∧
      List.Forall₂ (fun t jp => ∃ n, jparse t = .ok n jp) (cachedTexts maps) l ∧
      l.length = numCached maps ∧
      ∃ rc c' req', evalGo ext root maps c req = some (rc, c', req') ∧
        (rc = .updated → c' = (if endsCached maps then [] else [none])) := by
  have hgo : instGo jparse has64 maps none = .ok c := hinst
  obtain ⟨l, hc, hf⟩ := instGo_ok_shape jparse has64 maps c hgo
  have hlen : l.length = numCached maps := by
    rw [← cachedTexts_length maps]
    exact hf.length_eq.symm
  obtain ⟨rc, c', req', heq, himp⟩ :=
    evalGo_lockstep ext root maps l (if endsCached maps then [] else [none]) req hlen.symm
  rw [hc]
  exact ⟨l, rfl, hf, hlen, rc, c', req', heq, himp⟩

/-- C3 amended witness: for the single static map, the cache is one filled
entry, the walk succeeds and consumes it entirely. -/
theorem cache_lockstep_witness :
    ∃ l : List Jpath,
      [some 7] = l.map some ++ (if endsCached [mapStat] then [] else [none]) ∧
      List.Forall₂ (fun t jp => ∃ n, jparseFixOk t = JParseRes.ok n jp)
        (cachedTexts [mapStat]) l ∧
      l.length = numCached [mapStat] ∧
      ∃ rc c' req', evalGo extNoMatch 0 [mapStat] [some 7] [] = some (rc, c', req') ∧
        (rc = RlmRcode.updated → c' = (if endsCached [mapStat] then [] else [none])) :=
  cache_lockstep jparseFixOk true 0 [mapStat] [some 7] extNoMatch 0 [] rfl

end RlmJson
